import Mathlib

/-!
Shallow embedding of the Weighted Product ranking routine
`weighted_product` from `src/app.py` (repository SPK-WP).

The Python source works on numpy float arrays; here the arithmetic is
modelled over the real numbers `ℝ` (with Lean's convention `x / 0 = 0`
where numpy would produce `nan`/`inf`), and numpy arrays / Python lists
become Lean lists.  The steps of the source are kept one-to-one:

  1. `w = np.array(weights)`; if `not np.isclose(w.sum(), 1.0)` then
     `w = w / w.sum()`  — modelled by `normWeights` (with numpy's
     default tolerances `rtol = 1e-5`, `atol = 1e-8`, so
     `isclose(a, 1.0)` is `|a - 1| ≤ 1e-8 + 1e-5 * |1|`).
  2. `w_wp[j] = -w[j]` when `criteria_type[j].lower().strip() == "cost"`
     — modelled by `signedWeights` / `isCostLabel`.
  3. `S = np.prod(X ** w_wp, axis=1)` — modelled by `rawScore` /
     `rawScores`, real exponentiation being `Real.rpow`.
  4. `V = S / S.sum()` — modelled by `prefScores`.
  5. `df_result.sort_values(by="Nilai_V", ascending=False)` — modelled
     by the descending-by-V sort `sortDesc` (pandas keeps rows with
     equal keys in input order on the inputs considered here; see the
     development of the sorting claims below).
-/

namespace SPKWP

/-- Tolerance of `np.isclose(a, b)` with `b = 1.0`:
`|a - b| <= atol + rtol * |b|` with numpy defaults
`atol = 1e-8`, `rtol = 1e-5`. -/
def npCloseOne (a : ℝ) : Prop := |a - 1| ≤ 1e-8 + 1e-5 * |(1 : ℝ)|

noncomputable instance : DecidablePred npCloseOne := fun _ => Classical.dec _

/-- Step 1 of `weighted_product`: `if not np.isclose(w.sum(), 1.0): w = w / w.sum()`. -/
noncomputable def normWeights (w : List ℝ) : List ℝ :=
  if npCloseOne w.sum then w else w.map (fun x => x / w.sum)

/-- Python's `s.lower().strip()` modelled at the character level:
lowercase every character, then drop leading and trailing whitespace.
(Python's `str.lower` is full Unicode; `Char.toLower` covers the ASCII
range, which is all that the labels "benefit"/"cost" exercise.) -/
def pyLowerStrip (s : String) : String :=
  String.mk ((((s.data.map Char.toLower).dropWhile
    Char.isWhitespace).reverse.dropWhile Char.isWhitespace).reverse)

/-- The test `t.lower().strip() == "cost"` from the source. -/
def isCostLabel (t : String) : Bool := pyLowerStrip t == "cost"

/-- Step 2 of `weighted_product`: negate the weight of each criterion whose
type label satisfies `t.lower().strip() == "cost"`. -/
def signedWeights (w : List ℝ) (criteria_type : List String) : List ℝ :=
  (w.zip criteria_type).map (fun p => if isCostLabel p.2 then -p.1 else p.1)

/-- The exponent vector actually used by the source: weights passed through
the conditional normalization of step 1, then sign-flipped for cost
criteria in step 2. -/
noncomputable def exponents (w : List ℝ) (criteria_type : List String) : List ℝ :=
  signedWeights (normWeights w) criteria_type

/-- One row of `X ** w_wp` followed by `np.prod(..., axis=1)`:
the product over the criteria of the entry raised to its exponent. -/
noncomputable def rawScore : List ℝ → List ℝ → ℝ
  | x :: xs, e :: es => x ^ e * rawScore xs es
  | _, _ => 1

/-- Step 3: the vector `S`, one raw score per alternative (matrix row). -/
noncomputable def rawScores (X : List (List ℝ)) (w : List ℝ)
    (criteria_type : List String) : List ℝ :=
  X.map (fun row => rawScore row (exponents w criteria_type))

/-- Step 4: the vector `V = S / S.sum()`. -/
noncomputable def prefScores (X : List (List ℝ)) (w : List ℝ)
    (criteria_type : List String) : List ℝ :=
  let S := rawScores X w criteria_type
  S.map (fun s => s / S.sum)

/-- Insertion into a list sorted descending by the `V` component
(third component), keeping earlier rows first on ties. -/
noncomputable def insertDesc (x : String × ℝ × ℝ) :
    List (String × ℝ × ℝ) → List (String × ℝ × ℝ)
  | [] => [x]
  | y :: ys => if x.2.2 < y.2.2 then y :: insertDesc x ys else x :: y :: ys

/-- The sort `df_result.sort_values(by="Nilai_V", ascending=False)`:
rows reordered so the `V` column is descending. -/
noncomputable def sortDesc : List (String × ℝ × ℝ) → List (String × ℝ × ℝ)
  | [] => []
  | x :: xs => insertDesc x (sortDesc xs)

/-- The whole routine `weighted_product(X, weights, criteria_type,
alternatives, criteria)` from `src/app.py`: rows `(label, S_i, V_i)`
sorted by `V` descending.  The `criteria` argument is accepted and unused,
exactly as in the source. -/
noncomputable def weighted_product (X : List (List ℝ)) (weights : List ℝ)
    (criteria_type : List String) (alternatives : List String)
    (criteria : List String) : List (String × ℝ × ℝ) :=
  let S := rawScores X weights criteria_type
  let V := S.map (fun s => s / S.sum)
  sortDesc (alternatives.zip (S.zip V))

/-! ### Support lemmas about the embedded definitions -/

lemma normWeights_length (w : List ℝ) : (normWeights w).length = w.length := by
  unfold normWeights; split <;> simp

lemma signedWeights_length (w : List ℝ) (ty : List String) :
    (signedWeights w ty).length = min w.length ty.length := by
  simp [signedWeights]

lemma exponents_length (w : List ℝ) (ty : List String) :
    (exponents w ty).length = min w.length ty.length := by
  simp [exponents, signedWeights_length, normWeights_length]

lemma rawScores_length (X : List (List ℝ)) (w : List ℝ) (ty : List String) :
    (rawScores X w ty).length = X.length := by
  simp [rawScores]

lemma prefScores_length (X : List (List ℝ)) (w : List ℝ) (ty : List String) :
    (prefScores X w ty).length = X.length := by
  simp [prefScores, rawScores]

lemma getD_map_real (l : List ℝ) (f : ℝ → ℝ) (j : ℕ) (h : j < l.length) :
    (l.map f).getD j 0 = f (l.getD j 0) := by
  rw [List.getD_eq_getElem _ _ (by simpa using h), List.getD_eq_getElem _ _ h,
    List.getElem_map]

lemma normWeights_getD (w : List ℝ) (j : ℕ) (hj : j < w.length) :
    (normWeights w).getD j 0 =
      if npCloseOne w.sum then w.getD j 0 else w.getD j 0 / w.sum := by
  unfold normWeights
  split
  · rfl
  · exact getD_map_real w _ j hj

lemma signedWeights_getD (w : List ℝ) (ty : List String) (j : ℕ)
    (hjw : j < w.length) (hjt : j < ty.length) :
    (signedWeights w ty).getD j 0 =
      if isCostLabel (ty.getD j "") then -(w.getD j 0) else w.getD j 0 := by
  unfold signedWeights
  rw [List.getD_eq_getElem _ _ (by simp; omega), List.getElem_map,
    List.getElem_zip, List.getD_eq_getElem _ _ hjw, List.getD_eq_getElem _ _ hjt]

lemma exponents_getD (w : List ℝ) (ty : List String) (j : ℕ)
    (hjw : j < w.length) (hjt : j < ty.length) :
    (exponents w ty).getD j 0 =
      if isCostLabel (ty.getD j "") then -((normWeights w).getD j 0)
      else (normWeights w).getD j 0 := by
  unfold exponents
  exact signedWeights_getD _ _ _ (by rwa [normWeights_length]) hjt

lemma rawScore_pos (row e : List ℝ) (hrow : ∀ x ∈ row, 0 < x) :
    0 < rawScore row e := by
  induction row generalizing e with
  | nil => simp [rawScore]
  | cons x xs ih =>
    cases e with
    | nil => simp [rawScore]
    | cons p ps =>
      rw [rawScore]
      exact mul_pos (Real.rpow_pos_of_pos (hrow x (by simp)) p)
        (ih ps fun y hy => hrow y (by simp [hy]))

lemma rawScores_pos (X : List (List ℝ)) (w : List ℝ) (ty : List String)
    (hX : ∀ row ∈ X, ∀ x ∈ row, 0 < x) :
    ∀ s ∈ rawScores X w ty, 0 < s := by
  intro s hs
  simp only [rawScores, List.mem_map] at hs
  obtain ⟨row, hrow, rfl⟩ := hs
  exact rawScore_pos _ _ (hX row hrow)

lemma sum_pos_of_mem_pos (l : List ℝ) (h : ∀ x ∈ l, 0 < x) (hne : l ≠ []) :
    0 < l.sum :=
  List.sum_pos l h hne

lemma getD_le_sum (l : List ℝ) (i : ℕ) (h : ∀ x ∈ l, 0 ≤ x) (hi : i < l.length) :
    l.getD i 0 ≤ l.sum := by
  induction l generalizing i with
  | nil => simp at hi
  | cons x xs ih =>
    cases i with
    | zero =>
      rw [List.getD_cons_zero, List.sum_cons]
      have : (0:ℝ) ≤ xs.sum := List.sum_nonneg fun y hy => h y (by simp [hy])
      linarith
    | succ n =>
      rw [List.getD_cons_succ, List.sum_cons]
      exact le_add_of_nonneg_of_le (h x (by simp))
        (ih n (fun y hy => h y (by simp [hy])) (by simpa using hi))

lemma getD_lt_sum (l : List ℝ) (i : ℕ) (h : ∀ x ∈ l, 0 < x)
    (hlen : 2 ≤ l.length) (hi : i < l.length) : l.getD i 0 < l.sum := by
  induction l generalizing i with
  | nil => simp at hi
  | cons x xs ih =>
    have hxs : xs ≠ [] := by
      intro hnil; rw [hnil] at hlen; simp at hlen
    cases i with
    | zero =>
      simpa using lt_add_of_pos_right x
        (sum_pos_of_mem_pos xs (fun y hy => h y (by simp [hy])) hxs)
    | succ n =>
      rw [List.getD_cons_succ, List.sum_cons]
      have : xs.getD n 0 ≤ xs.sum :=
        getD_le_sum xs n (fun y hy => le_of_lt (h y (by simp [hy])))
          (by simpa using hi)
      have hx : 0 < x := h x (by simp)
      linarith

lemma sum_set_real (l : List ℝ) (i : ℕ) (hi : i < l.length) (a : ℝ) :
    (l.set i a).sum = l.sum - l.getD i 0 + a := by
  induction l generalizing i with
  | nil => simp at hi
  | cons x xs ih =>
    cases i with
    | zero => simp [List.sum_cons]; ring
    | succ n =>
      simp only [List.set_cons_succ, List.sum_cons, List.getD_cons_succ]
      rw [ih n (by simpa using hi)]; ring

lemma rawScores_getD (X : List (List ℝ)) (w : List ℝ) (ty : List String)
    (i : ℕ) (hi : i < X.length) :
    (rawScores X w ty).getD i 0 =
      rawScore (X.getD i []) (exponents w ty) := by
  unfold rawScores
  rw [List.getD_eq_getElem _ _ (by simpa using hi), List.getElem_map,
    List.getD_eq_getElem _ _ hi]

lemma prefScores_getD (X : List (List ℝ)) (w : List ℝ) (ty : List String)
    (i : ℕ) (hi : i < X.length) :
    (prefScores X w ty).getD i 0 =
      (rawScores X w ty).getD i 0 / (rawScores X w ty).sum := by
  unfold prefScores
  exact getD_map_real _ _ i (by rwa [rawScores_length])

lemma sum_map_div_real (l : List ℝ) (c : ℝ) :
    (l.map (fun s => s / c)).sum = l.sum / c := by
  induction l with
  | nil => simp
  | cons x xs ih => simp [List.sum_cons, ih, add_div]

lemma prefScores_sum (X : List (List ℝ)) (w : List ℝ) (ty : List String)
    (hT : (rawScores X w ty).sum ≠ 0) :
    (prefScores X w ty).sum = 1 := by
  unfold prefScores
  rw [sum_map_div_real, div_self hT]

lemma sortDesc_pair (r s : String × ℝ × ℝ) (h : ¬ r.2.2 < s.2.2) :
    sortDesc [r, s] = [r, s] := by
  simp [sortDesc, insertDesc, h]

lemma insertDesc_length (x : String × ℝ × ℝ) (l : List (String × ℝ × ℝ)) :
    (insertDesc x l).length = l.length + 1 := by
  induction l with
  | nil => rfl
  | cons y ys ih =>
    rw [insertDesc]
    split
    · simp [ih]
    · simp

lemma sortDesc_length (l : List (String × ℝ × ℝ)) :
    (sortDesc l).length = l.length := by
  induction l with
  | nil => rfl
  | cons x xs ih => rw [sortDesc, insertDesc_length, ih, List.length_cons]

lemma weighted_product_length (X : List (List ℝ)) (w : List ℝ)
    (ty labels crit : List String) (hlen : labels.length = X.length) :
    (weighted_product X w ty labels crit).length = X.length := by
  unfold weighted_product
  rw [sortDesc_length]
  simp [rawScores, hlen]

lemma normWeights_unfold (v : List ℝ) :
    normWeights v = if npCloseOne v.sum then v else v.map (fun x => x / v.sum) :=
  rfl

lemma map_set_list {α β : Type} (l : List α) (f : α → β) (n : ℕ) (a : α) :
    (l.set n a).map f = (l.map f).set n (f a) := by
  induction l generalizing n with
  | nil => simp
  | cons x xs ih =>
    cases n with
    | zero => simp
    | succ m => simp [ih]

lemma getD_set_self (l : List ℝ) (i : ℕ) (hi : i < l.length) (a : ℝ) :
    (l.set i a).getD i 0 = a := by
  rw [List.getD_eq_getElem _ _ (by simpa using hi)]
  simp [List.getElem_set_self]

lemma rawScore_set_lt (row e : List ℝ) (j : ℕ) (v : ℝ)
    (hrow : ∀ x ∈ row, 0 < x)
    (hj : j < row.length) (hje : j < e.length)
    (hv : row.getD j 0 < v)
    (he : 0 < e.getD j 0) :
    rawScore row e < rawScore (row.set j v) e := by
  induction j generalizing row e with
  | zero =>
    cases row with
    | nil => simp at hj
    | cons x xs =>
      cases e with
      | nil => simp at hje
      | cons p ps =>
        simp only [List.set_cons_zero]
        rw [rawScore, rawScore]
        have hrest : 0 < rawScore xs ps :=
          rawScore_pos xs ps fun y hy => hrow y (by simp [hy])
        have hlt : x ^ p < v ^ p :=
          Real.rpow_lt_rpow (le_of_lt (hrow x (by simp)))
            (by simpa using hv) (by simpa using he)
        exact mul_lt_mul_of_pos_right hlt hrest
  | succ n ih =>
    cases row with
    | nil => simp at hj
    | cons x xs =>
      cases e with
      | nil => simp at hje
      | cons p ps =>
        simp only [List.set_cons_succ]
        rw [rawScore, rawScore]
        have hx : 0 < x ^ p := Real.rpow_pos_of_pos (hrow x (by simp)) p
        exact mul_lt_mul_of_pos_left
          (ih xs ps (fun y hy => hrow y (by simp [hy])) (by simpa using hj)
            (by simpa using hje) (by simpa using hv) (by simpa using he)) hx

lemma rawScore_set_gt (row e : List ℝ) (j : ℕ) (v : ℝ)
    (hrow : ∀ x ∈ row, 0 < x)
    (hj : j < row.length) (hje : j < e.length)
    (hv : row.getD j 0 < v)
    (he : e.getD j 0 < 0) :
    rawScore (row.set j v) e < rawScore row e := by
  induction j generalizing row e with
  | zero =>
    cases row with
    | nil => simp at hj
    | cons x xs =>
      cases e with
      | nil => simp at hje
      | cons p ps =>
        simp only [List.set_cons_zero]
        rw [rawScore, rawScore]
        have hrest : 0 < rawScore xs ps :=
          rawScore_pos xs ps fun y hy => hrow y (by simp [hy])
        have hlt : v ^ p < x ^ p :=
          Real.rpow_lt_rpow_of_neg (hrow x (by simp))
            (by simpa using hv) (by simpa using he)
        exact mul_lt_mul_of_pos_right hlt hrest
  | succ n ih =>
    cases row with
    | nil => simp at hj
    | cons x xs =>
      cases e with
      | nil => simp at hje
      | cons p ps =>
        simp only [List.set_cons_succ]
        rw [rawScore, rawScore]
        have hx : 0 < x ^ p := Real.rpow_pos_of_pos (hrow x (by simp)) p
        exact mul_lt_mul_of_pos_left
          (ih xs ps (fun y hy => hrow y (by simp [hy])) (by simpa using hj)
            (by simpa using hje) (by simpa using hv) (by simpa using he)) hx

lemma rawScores_set (X : List (List ℝ)) (w : List ℝ) (ty : List String)
    (i : ℕ) (row : List ℝ) :
    rawScores (X.set i row) w ty =
      (rawScores X w ty).set i (rawScore row (exponents w ty)) := by
  unfold rawScores
  exact map_set_list X _ i row

lemma div_lt_div_incr (a a' t : ℝ) (ha : 0 < a) (hat : a < t) (haa : a < a') :
    a / t < a' / (t - a + a') := by
  have ht : 0 < t := lt_trans ha hat
  have ht' : 0 < t - a + a' := by linarith
  rw [div_lt_div_iff ht ht']
  nlinarith [mul_pos (sub_pos.mpr haa) (sub_pos.mpr hat)]

lemma div_lt_div_decr (a a' t : ℝ) (ha' : 0 < a') (hat : a < t)
    (haa : a' < a) : a' / (t - a + a') < a / t := by
  have ha : 0 < a := lt_trans ha' haa
  have ht : 0 < t := lt_trans ha hat
  have ht' : 0 < t - a + a' := by linarith
  rw [div_lt_div_iff ht' ht]
  nlinarith [mul_pos (sub_pos.mpr haa) (sub_pos.mpr hat)]

/-! ### Claim theorems -/

/-- C1: for every valid input (all matrix entries positive — hence finite —
weights non-negative with positive sum, every criteria type "benefit" or
"cost"), the engine's raw score of alternative `i` is
`rawScore row (exponents w ty)`, i.e. the product over the criteria of the
entry raised to its signed exponent, the preference score is
`V_i = S_i / S_total`, and the preference scores sum to 1. -/
theorem C1_scores_formula_and_sum_one (X : List (List ℝ)) (w : List ℝ)
    (ty : List String)
    (hXne : X ≠ [])
    (hpos : ∀ row ∈ X, ∀ x ∈ row, 0 < x)
    (hw : ∀ x ∈ w, 0 ≤ x) (hwsum : 0 < w.sum)
    (hty : ∀ t ∈ ty, pyLowerStrip t = "benefit" ∨ pyLowerStrip t = "cost") :
    (∀ i, i < X.length →
        (rawScores X w ty).getD i 0 = rawScore (X.getD i []) (exponents w ty)) ∧
    (∀ i, i < X.length →
        (prefScores X w ty).getD i 0 =
          (rawScores X w ty).getD i 0 / (rawScores X w ty).sum) ∧
    (prefScores X w ty).sum = 1 := by
  have hSne : rawScores X w ty ≠ [] := by
    intro hnil
    have := rawScores_length X w ty
    rw [hnil] at this
    exact hXne (List.eq_nil_of_length_eq_zero this.symm)
  have hT : 0 < (rawScores X w ty).sum :=
    sum_pos_of_mem_pos _ (rawScores_pos X w ty hpos) hSne
  refine ⟨?_, ?_, prefScores_sum X w ty (ne_of_gt hT)⟩
  · intro i hi
    rw [List.getD_eq_getElem _ _ (by rwa [rawScores_length]),
      List.getD_eq_getElem _ _ hi]
    simp [rawScores]
  · intro i hi
    exact prefScores_getD X w ty i hi

/-- Witness for C1 at the input `X = [[1]]`, `w = [1]`, `ty = ["benefit"]`. -/
theorem C1_scores_formula_and_sum_one_witness :
    ([[(1:ℝ)]] ≠ ([] : List (List ℝ))) ∧
    (∀ row ∈ [[(1:ℝ)]], ∀ x ∈ row, 0 < x) ∧
    (∀ x ∈ [(1:ℝ)], 0 ≤ x) ∧ (0 < ([(1:ℝ)]).sum) ∧
    (∀ t ∈ ["benefit"], pyLowerStrip t = "benefit" ∨ pyLowerStrip t = "cost") ∧
    ((∀ i, i < [[(1:ℝ)]].length →
        (rawScores [[(1:ℝ)]] [1] ["benefit"]).getD i 0 =
          rawScore ([[(1:ℝ)]].getD i []) (exponents [1] ["benefit"])) ∧
      (∀ i, i < [[(1:ℝ)]].length →
        (prefScores [[(1:ℝ)]] [1] ["benefit"]).getD i 0 =
          (rawScores [[(1:ℝ)]] [1] ["benefit"]).getD i 0 /
            (rawScores [[(1:ℝ)]] [1] ["benefit"]).sum) ∧
      (prefScores [[(1:ℝ)]] [1] ["benefit"]).sum = 1) :=
  ⟨by simp, by norm_num, by norm_num, by norm_num, by decide,
    C1_scores_formula_and_sum_one [[1]] [1] ["benefit"] (by simp)
      (by norm_num) (by norm_num) (by norm_num) (by decide)⟩

set_option maxHeartbeats 1600000 in
/-- C2: on the matrix `[[80,70],[60,90]]` with weights `[0.5,0.5]`, types
`["benefit","cost"]` and labels `["A","B"]`, the engine builds the exponents
`[0.5,-0.5]`, raw scores `S_A ≈ 1.0690`, `S_B ≈ 0.8165`,
`S_total ≈ 1.8855`, preference scores `V_A ≈ 0.5669`, `V_B ≈ 0.4331`
(all within `1e-4`), and ranks `A` before `B`. -/
theorem C2_concrete_scenario :
    exponents [(0.5:ℝ), 0.5] ["benefit", "cost"] = [0.5, -0.5] ∧
    |(rawScores [[(80:ℝ),70],[60,90]] [0.5,0.5] ["benefit","cost"]).getD 0 0
      - 1.0690| < 1e-4 ∧
    |(rawScores [[(80:ℝ),70],[60,90]] [0.5,0.5] ["benefit","cost"]).getD 1 0
      - 0.8165| < 1e-4 ∧
    |(rawScores [[(80:ℝ),70],[60,90]] [0.5,0.5] ["benefit","cost"]).sum
      - 1.8855| < 1e-4 ∧
    |(prefScores [[(80:ℝ),70],[60,90]] [0.5,0.5] ["benefit","cost"]).getD 0 0
      - 0.5669| < 1e-4 ∧
    |(prefScores [[(80:ℝ),70],[60,90]] [0.5,0.5] ["benefit","cost"]).getD 1 0
      - 0.4331| < 1e-4 ∧
    (weighted_product [[(80:ℝ),70],[60,90]] [0.5,0.5] ["benefit","cost"]
      ["A","B"] ["k1","k2"]).map (fun r => r.1) = ["A", "B"] := by
  have hcost : isCostLabel "cost" = true := by decide
  have hben : isCostLabel "benefit" = false := by decide
  have hclose : npCloseOne ([(0.5:ℝ), 0.5]).sum := by unfold npCloseOne; norm_num
  have hexp : exponents [(0.5:ℝ), 0.5] ["benefit", "cost"] = [0.5, -0.5] := by
    unfold exponents normWeights
    rw [if_pos hclose]
    simp [signedWeights, hcost, hben]
  have hS : rawScores [[(80:ℝ),70],[60,90]] [0.5,0.5] ["benefit","cost"]
      = [(80:ℝ) ^ (0.5:ℝ) * (70:ℝ) ^ (-0.5:ℝ),
         (60:ℝ) ^ (0.5:ℝ) * (90:ℝ) ^ (-0.5:ℝ)] := by
    unfold rawScores
    rw [hexp]
    simp [rawScore]
  set a := (80:ℝ) ^ (0.5:ℝ) * (70:ℝ) ^ (-0.5:ℝ) with hadef
  set b := (60:ℝ) ^ (0.5:ℝ) * (90:ℝ) ^ (-0.5:ℝ) with hbdef
  have ha0 : 0 < a :=
    mul_pos (Real.rpow_pos_of_pos (by norm_num) _)
      (Real.rpow_pos_of_pos (by norm_num) _)
  have hb0 : 0 < b :=
    mul_pos (Real.rpow_pos_of_pos (by norm_num) _)
      (Real.rpow_pos_of_pos (by norm_num) _)
  have haa : a * a = 8/7 := by
    rw [hadef]
    have h80 : (80:ℝ) ^ (0.5:ℝ) * (80:ℝ) ^ (0.5:ℝ) = 80 := by
      rw [← Real.rpow_add (by norm_num)]; norm_num
    have h70 : (70:ℝ) ^ (-0.5:ℝ) * (70:ℝ) ^ (-0.5:ℝ) = 70⁻¹ := by
      rw [← Real.rpow_add (by norm_num)]
      norm_num [Real.rpow_neg_one]
    calc ((80:ℝ) ^ (0.5:ℝ) * (70:ℝ) ^ (-0.5:ℝ)) *
          ((80:ℝ) ^ (0.5:ℝ) * (70:ℝ) ^ (-0.5:ℝ))
        = ((80:ℝ) ^ (0.5:ℝ) * (80:ℝ) ^ (0.5:ℝ)) *
            ((70:ℝ) ^ (-0.5:ℝ) * (70:ℝ) ^ (-0.5:ℝ)) := by ring
      _ = 80 * 70⁻¹ := by rw [h80, h70]
      _ = 8/7 := by norm_num
  have hbb : b * b = 2/3 := by
    rw [hbdef]
    have h60 : (60:ℝ) ^ (0.5:ℝ) * (60:ℝ) ^ (0.5:ℝ) = 60 := by
      rw [← Real.rpow_add (by norm_num)]; norm_num
    have h90 : (90:ℝ) ^ (-0.5:ℝ) * (90:ℝ) ^ (-0.5:ℝ) = 90⁻¹ := by
      rw [← Real.rpow_add (by norm_num)]
      norm_num [Real.rpow_neg_one]
    calc ((60:ℝ) ^ (0.5:ℝ) * (90:ℝ) ^ (-0.5:ℝ)) *
          ((60:ℝ) ^ (0.5:ℝ) * (90:ℝ) ^ (-0.5:ℝ))
        = ((60:ℝ) ^ (0.5:ℝ) * (60:ℝ) ^ (0.5:ℝ)) *
            ((90:ℝ) ^ (-0.5:ℝ) * (90:ℝ) ^ (-0.5:ℝ)) := by ring
      _ = 60 * 90⁻¹ := by rw [h60, h90]
      _ = 2/3 := by norm_num
  have ha1 : (1.06904:ℝ) < a := by nlinarith
  have ha2 : a < (1.06905:ℝ) := by nlinarith
  have hb1 : (0.81649:ℝ) < b := by nlinarith
  have hb2 : b < (0.81650:ℝ) := by nlinarith
  have hab : (0:ℝ) < a + b := by linarith
  have hV : prefScores [[(80:ℝ),70],[60,90]] [0.5,0.5] ["benefit","cost"]
      = [a / (a + b), b / (a + b)] := by
    unfold prefScores
    rw [hS]
    simp
  refine ⟨hexp, ?_, ?_, ?_, ?_, ?_, ?_⟩
  · rw [hS]
    simp only [List.getD_cons_zero]
    rw [abs_lt]
    constructor <;> linarith
  · rw [hS]
    simp only [List.getD_cons_succ, List.getD_cons_zero]
    rw [abs_lt]
    constructor <;> linarith
  · rw [hS]
    simp only [List.sum_cons, List.sum_nil, add_zero]
    rw [abs_lt]
    constructor <;> linarith
  · rw [hV]
    simp only [List.getD_cons_zero]
    have h1 : a / (a + b) < (0.5670:ℝ) := by rw [div_lt_iff₀ hab]; linarith
    have h2 : (0.5668:ℝ) < a / (a + b) := by rw [lt_div_iff₀ hab]; linarith
    rw [abs_lt]
    constructor <;> linarith
  · rw [hV]
    simp only [List.getD_cons_succ, List.getD_cons_zero]
    have h1 : b / (a + b) < (0.4332:ℝ) := by rw [div_lt_iff₀ hab]; linarith
    have h2 : (0.4330:ℝ) < b / (a + b) := by rw [lt_div_iff₀ hab]; linarith
    rw [abs_lt]
    constructor <;> linarith
  · have hba : b / (a + b) < a / (a + b) := by
      rw [div_lt_div_iff_of_pos_right hab]  -- fix name if needed
      linarith
    simp only [weighted_product]
    rw [hS]
    simp only [List.sum_cons, List.sum_nil, add_zero, List.map_cons,
      List.map_nil, List.zip_cons_cons, List.zip_nil_right]
    rw [sortDesc_pair ("A", a, a / (a + b)) ("B", b, b / (a + b))
      (not_lt.mpr (le_of_lt hba))]
    simp

/-- C3 counterexample: with weights `[1/2, 499999/1000000]` (sum
`0.999999`, inside the `np.isclose` window) and two benefit criteria,
the exponent of criterion 0 is the raw weight `1/2`, which differs from
the normalized weight `w_0 / Σw`; so the exponent does not always equal
the normalized weight. -/
theorem C3_exponent_counterexample :
    (exponents [(1:ℝ)/2, 499999/1000000] ["benefit", "benefit"]).getD 0 0
      = 1/2 ∧
    ((1:ℝ)/2) ≠ ((1:ℝ)/2) / ([(1:ℝ)/2, 499999/1000000] : List ℝ).sum := by
  have hsum : ([(1:ℝ)/2, 499999/1000000] : List ℝ).sum = 999999/1000000 := by
    norm_num
  have hclose : npCloseOne ([(1:ℝ)/2, 499999/1000000] : List ℝ).sum := by
    unfold npCloseOne
    rw [hsum, abs_of_nonpos (by norm_num), abs_of_pos (by norm_num)]
    norm_num
  constructor
  · unfold exponents
    rw [normWeights_unfold, if_pos hclose]
    simp [signedWeights, show isCostLabel "benefit" = false from by decide]
  · rw [hsum]
    norm_num

/-- C3 amended: for every criterion `j`, the exponent used in the score
product is `+e` for a label normalizing to "benefit" and `-e` for a label
normalizing to "cost" (label matching via `lower().strip()`, hence case-
and whitespace-insensitive), where the magnitude `e` is the normalized
weight `w_j / Σw` only when `Σw` fails the `np.isclose(Σw, 1)` test; when
`Σw` is within that tolerance of 1 the raw weight `w_j` is used instead. -/
theorem C3_exponent_rule_amended (w : List ℝ) (ty : List String) (j : ℕ)
    (hjw : j < w.length) (hjt : j < ty.length) :
    (pyLowerStrip (ty.getD j "") = "benefit" →
      (exponents w ty).getD j 0 =
        (if npCloseOne w.sum then w.getD j 0 else w.getD j 0 / w.sum)) ∧
    (pyLowerStrip (ty.getD j "") = "cost" →
      (exponents w ty).getD j 0 =
        -(if npCloseOne w.sum then w.getD j 0 else w.getD j 0 / w.sum)) := by
  rw [exponents_getD w ty j hjw hjt, normWeights_getD w j hjw]
  constructor
  · intro hben
    rw [if_neg (by simp only [isCostLabel, beq_iff_eq, hben]; decide)]
  · intro hcost
    rw [if_pos (show isCostLabel (ty.getD j "") = true by
      simp only [isCostLabel, beq_iff_eq]; exact hcost)]

/-- Witness for C3 amended at `w = [2,1]`, `ty = ["benefit","cost"]`, `j = 0`. -/
theorem C3_exponent_rule_amended_witness :
    0 < ([(2:ℝ), 1]).length ∧ 0 < (["benefit", "cost"]).length ∧
    ((pyLowerStrip ((["benefit", "cost"]).getD 0 "") = "benefit" →
      (exponents [(2:ℝ), 1] ["benefit", "cost"]).getD 0 0 =
        (if npCloseOne ([(2:ℝ), 1]).sum then ([(2:ℝ), 1]).getD 0 0
         else ([(2:ℝ), 1]).getD 0 0 / ([(2:ℝ), 1]).sum)) ∧
     (pyLowerStrip ((["benefit", "cost"]).getD 0 "") = "cost" →
      (exponents [(2:ℝ), 1] ["benefit", "cost"]).getD 0 0 =
        -(if npCloseOne ([(2:ℝ), 1]).sum then ([(2:ℝ), 1]).getD 0 0
          else ([(2:ℝ), 1]).getD 0 0 / ([(2:ℝ), 1]).sum))) :=
  ⟨by norm_num, by norm_num,
    C3_exponent_rule_amended [2, 1] ["benefit", "cost"] 0 (by norm_num)
      (by norm_num)⟩

/-- C8 counterexample: for the weight vector `[1/2, 499999/1000000]`
(positive sum `0.999999`), the engine skips normalization — the weights
are returned unchanged — and the resulting weights do not sum to 1 within
the tolerance `1e-9`; so normalization is not always performed. -/
theorem C8_normalization_counterexample :
    normWeights [(1:ℝ)/2, 499999/1000000] = [(1:ℝ)/2, 499999/1000000] ∧
    ¬ (|(normWeights [(1:ℝ)/2, 499999/1000000]).sum - 1| ≤ 1e-9) := by
  have hsum : ([(1:ℝ)/2, 499999/1000000] : List ℝ).sum = 999999/1000000 := by
    norm_num
  have hclose : npCloseOne ([(1:ℝ)/2, 499999/1000000] : List ℝ).sum := by
    unfold npCloseOne
    rw [hsum, abs_of_nonpos (by norm_num), abs_of_pos (by norm_num)]
    norm_num
  have h1 : normWeights [(1:ℝ)/2, 499999/1000000] =
      [(1:ℝ)/2, 499999/1000000] := by
    rw [normWeights_unfold, if_pos hclose]
  refine ⟨h1, ?_⟩
  rw [h1, hsum, abs_of_nonpos (by norm_num)]
  norm_num

/-- C8 amended: when `Σw` is NOT within the `np.isclose` tolerance of 1,
the engine does divide by `Σw` and the resulting weights sum to exactly 1
(in real arithmetic); moreover, for any weight vector with positive sum,
re-applying the normalization step never changes its result (idempotence).
When `Σw` is already within the `np.isclose` tolerance of 1, the division
is skipped and the weights are used as supplied. -/
theorem C8_normalization_amended (w : List ℝ) (hpos : 0 < w.sum) :
    (¬ npCloseOne w.sum → (normWeights w).sum = 1) ∧
    normWeights (normWeights w) = normWeights w := by
  have hnorm : ¬ npCloseOne w.sum → (normWeights w).sum = 1 := by
    intro hnc
    rw [normWeights_unfold, if_neg hnc, sum_map_div_real,
      div_self (ne_of_gt hpos)]
  refine ⟨hnorm, ?_⟩
  by_cases hc : npCloseOne w.sum
  · have h : normWeights w = w := by rw [normWeights_unfold, if_pos hc]
    rw [h]
    exact h
  · have h2 : npCloseOne (normWeights w).sum := by
      rw [hnorm hc]
      unfold npCloseOne
      norm_num
    rw [normWeights_unfold (normWeights w), if_pos h2]

/-- Witness for C8 amended at `w = [2]`. -/
theorem C8_normalization_amended_witness :
    0 < ([(2:ℝ)]).sum ∧
    ((¬ npCloseOne ([(2:ℝ)]).sum → (normWeights [(2:ℝ)]).sum = 1) ∧
      normWeights (normWeights [(2:ℝ)]) = normWeights [(2:ℝ)]) :=
  ⟨by norm_num, C8_normalization_amended [2] (by norm_num)⟩

lemma not_npCloseOne_two : ¬ npCloseOne ([(1:ℝ), 1]).sum := by
  unfold npCloseOne
  rw [show ([(1:ℝ), 1]).sum = 2 by norm_num, abs_of_nonneg (by norm_num),
    abs_of_pos (by norm_num)]
  norm_num

lemma exponents_ones_benefit :
    exponents [(1:ℝ), 1] ["benefit", "benefit"] = [1/2, 1/2] := by
  unfold exponents
  rw [normWeights_unfold, if_neg not_npCloseOne_two]
  simp [signedWeights, show isCostLabel "benefit" = false from by decide]
  norm_num

lemma rawScores_zero_first :
    rawScores [[(0:ℝ), 1], [1, 1]] [1, 1] ["benefit", "benefit"] = [0, 1] := by
  unfold rawScores
  rw [exponents_ones_benefit]
  simp [rawScore, Real.one_rpow,
    Real.zero_rpow (show ((1:ℝ)/2) ≠ 0 by norm_num)]

lemma rawScores_single_zero :
    rawScores [[(0:ℝ), 2]] [1, 1] ["benefit", "benefit"] = [0] := by
  unfold rawScores
  rw [exponents_ones_benefit]
  simp [rawScore, Real.zero_rpow (show ((1:ℝ)/2) ≠ 0 by norm_num)]

/-- C4 counterexample: on a matrix whose first entry is zero (with
otherwise well-formed weights `[1,1]` and two benefit criteria) the
engine raises nothing and produces a full result: alternative `B` with
raw score 1 and preference 1 ranked first, `A` with raw score 0 and
preference 0 second.  No `InvalidValueError` (or any validation) exists
in the code. -/
theorem C4_zero_entry_counterexample :
    weighted_product [[(0:ℝ), 1], [1, 1]] [1, 1] ["benefit", "benefit"]
      ["A", "B"] ["k1", "k2"] = [("B", 1, 1), ("A", 0, 0)] := by
  unfold weighted_product
  rw [rawScores_zero_first]
  simp only [show ([(0:ℝ), 1]).sum = 1 from by norm_num, List.map_cons,
    List.map_nil, zero_div, div_one, List.zip_cons_cons, List.zip_nil_right,
    sortDesc, insertDesc]
  rw [if_pos (show (0:ℝ) < 1 by norm_num)]

/-- C4 amended: the engine performs no input-value validation and defines
no `InvalidValueError`; in particular on a matrix containing a zero entry
it still computes and returns a result with one row per alternative. -/
theorem C4_no_validation_amended (X : List (List ℝ)) (w : List ℝ)
    (ty labels crit : List String) (hlen : labels.length = X.length)
    (hzero : ∃ row ∈ X, (0:ℝ) ∈ row) :
    (weighted_product X w ty labels crit).length = X.length :=
  weighted_product_length X w ty labels crit hlen

/-- Witness for C4 amended at the zero-entry matrix `[[0,1],[1,1]]`. -/
theorem C4_no_validation_amended_witness :
    (["A", "B"].length = [[(0:ℝ), 1], [1, 1]].length) ∧
    (∃ row ∈ [[(0:ℝ), 1], [1, 1]], (0:ℝ) ∈ row) ∧
    (weighted_product [[(0:ℝ), 1], [1, 1]] [1, 1] ["benefit", "benefit"]
      ["A", "B"] ["k1", "k2"]).length = [[(0:ℝ), 1], [1, 1]].length :=
  ⟨by norm_num, ⟨[0, 1], by norm_num, by norm_num⟩,
    C4_no_validation_amended [[0, 1], [1, 1]] [1, 1] ["benefit", "benefit"]
      ["A", "B"] ["k1", "k2"] (by norm_num) ⟨[0, 1], by norm_num, by norm_num⟩⟩

/-- C5 counterexample: with the all-zero weight vector `[0,0]` the engine
raises nothing (no `ZeroWeightSumError` exists in the code): it divides by
the zero weight sum and still returns a result with one row per
alternative (in IEEE arithmetic the scores are NaN; in this real-valued
model the division by zero yields 0).  The claim that no result is
produced is therefore false. -/
theorem C5_zero_weights_counterexample :
    (weighted_product [[(1:ℝ), 1], [2, 2]] [0, 0] ["benefit", "benefit"]
      ["A", "B"] ["k1", "k2"]).length = 2 := by
  have h := weighted_product_length [[(1:ℝ), 1], [2, 2]] [0, 0]
    ["benefit", "benefit"] ["A", "B"] ["k1", "k2"] (by norm_num)
  simpa using h

/-- C5 amended: the engine has no zero-weight-sum check; for an all-zero
weight vector it proceeds through the division by `Σw = 0` and still
returns a result with one row per alternative. -/
theorem C5_zero_weights_amended (X : List (List ℝ)) (w : List ℝ)
    (ty labels crit : List String) (hlen : labels.length = X.length)
    (hw : ∀ x ∈ w, x = 0) :
    (weighted_product X w ty labels crit).length = X.length :=
  weighted_product_length X w ty labels crit hlen

/-- Witness for C5 amended at weights `[0,0]`. -/
theorem C5_zero_weights_amended_witness :
    (["A", "B"].length = [[(1:ℝ), 1], [2, 2]].length) ∧
    (∀ x ∈ [(0:ℝ), 0], x = 0) ∧
    (weighted_product [[(1:ℝ), 1], [2, 2]] [0, 0] ["benefit", "benefit"]
      ["A", "B"] ["k1", "k2"]).length = [[(1:ℝ), 1], [2, 2]].length :=
  ⟨by norm_num, by norm_num,
    C5_zero_weights_amended [[1, 1], [2, 2]] [0, 0] ["benefit", "benefit"]
      ["A", "B"] ["k1", "k2"] (by norm_num) (by norm_num)⟩

/-- C6 counterexample: on the single-alternative matrix `[[0,2]]` (zero
entry, benefit criteria) the total raw score is exactly 0, and the engine
still returns a one-row result instead of signalling anything: no
`DegenerateResultError` exists in the code (numpy produces NaN
preferences; in this real-valued model `0 / 0 = 0`). -/
theorem C6_degenerate_counterexample :
    (rawScores [[(0:ℝ), 2]] [1, 1] ["benefit", "benefit"]).sum = 0 ∧
    (weighted_product [[(0:ℝ), 2]] [1, 1] ["benefit", "benefit"] ["A"]
      ["k1", "k2"]).length = 1 := by
  constructor
  · rw [rawScores_single_zero]
    simp
  · have h := weighted_product_length [[(0:ℝ), 2]] [1, 1]
      ["benefit", "benefit"] ["A"] ["k1", "k2"] (by norm_num)
    simpa using h

/-- C6 amended: the engine has no degenerate-total check; when the raw
scores sum to zero it divides anyway and still returns a result with one
row per alternative. -/
theorem C6_degenerate_amended (X : List (List ℝ)) (w : List ℝ)
    (ty labels crit : List String) (hlen : labels.length = X.length)
    (hdeg : (rawScores X w ty).sum = 0) :
    (weighted_product X w ty labels crit).length = X.length :=
  weighted_product_length X w ty labels crit hlen

/-- Witness for C6 amended at the degenerate input `[[0,2]]`. -/
theorem C6_degenerate_amended_witness :
    (["A"].length = [[(0:ℝ), 2]].length) ∧
    ((rawScores [[(0:ℝ), 2]] [1, 1] ["benefit", "benefit"]).sum = 0) ∧
    (weighted_product [[(0:ℝ), 2]] [1, 1] ["benefit", "benefit"] ["A"]
      ["k1", "k2"]).length = [[(0:ℝ), 2]].length :=
  ⟨by norm_num, by rw [rawScores_single_zero]; simp,
    C6_degenerate_amended [[0, 2]] [1, 1] ["benefit", "benefit"] ["A"]
      ["k1", "k2"] (by norm_num) (by rw [rawScores_single_zero]; simp)⟩

/-- C9 counterexample: a valid input (positive entries, non-negative
weights with positive sum, benefit types, two alternatives) in which the
increased benefit criterion carries weight 0: raising entry `(0,0)` of
`[[1,1],[1,1]]` to 2 leaves the first alternative's preference score
unchanged, so the increase is not strict. -/
theorem C9_monotonicity_counterexample :
    (∀ row ∈ [[(1:ℝ), 1], [1, 1]], ∀ x ∈ row, 0 < x) ∧
    (∀ x ∈ [(0:ℝ), 1], 0 ≤ x) ∧ (0 < ([(0:ℝ), 1]).sum) ∧
    pyLowerStrip "benefit" = "benefit" ∧ ((1:ℝ) < 2) ∧
    [[(2:ℝ), 1], [1, 1]] =
      [[(1:ℝ), 1], [1, 1]].set 0 (([[(1:ℝ), 1], [1, 1]].getD 0 []).set 0 2) ∧
    (prefScores [[(2:ℝ), 1], [1, 1]] [0, 1] ["benefit", "benefit"]).getD 0 0 =
      (prefScores [[(1:ℝ), 1], [1, 1]] [0, 1] ["benefit", "benefit"]).getD 0 0 := by
  have hcl : npCloseOne ([(0:ℝ), 1]).sum := by
    unfold npCloseOne
    norm_num
  have hexp01 : exponents [(0:ℝ), 1] ["benefit", "benefit"] = [0, 1] := by
    unfold exponents
    rw [normWeights_unfold, if_pos hcl]
    simp [signedWeights, show isCostLabel "benefit" = false from by decide]
  have hS2 : rawScores [[(2:ℝ), 1], [1, 1]] [0, 1] ["benefit", "benefit"]
      = [1, 1] := by
    unfold rawScores
    rw [hexp01]
    simp [rawScore, Real.rpow_zero, Real.one_rpow]
  have hS1 : rawScores [[(1:ℝ), 1], [1, 1]] [0, 1] ["benefit", "benefit"]
      = [1, 1] := by
    unfold rawScores
    rw [hexp01]
    simp [rawScore, Real.rpow_zero, Real.one_rpow]
  refine ⟨by norm_num, by norm_num, by norm_num, by decide, by norm_num,
    by simp, ?_⟩
  unfold prefScores
  rw [hS1, hS2]

/-- C9 amended: for every valid input with at least two alternatives,
strictly increasing the entry of alternative `i` at a criterion `j` whose
weight is strictly positive strictly increases `V_i` when criterion `j`
is of benefit type and strictly decreases `V_i` when it is of cost type
(with zero weight at `j` the score is unchanged, which is what the
counterexample forces the claim to exclude). -/
theorem C9_monotonicity_amended (X : List (List ℝ)) (w : List ℝ)
    (ty : List String) (i j : ℕ) (v : ℝ)
    (hi : i < X.length) (h2 : 2 ≤ X.length)
    (hrows : ∀ row ∈ X, row.length = w.length)
    (hpos : ∀ row ∈ X, ∀ x ∈ row, 0 < x)
    (hw : ∀ x ∈ w, 0 ≤ x) (hwsum : 0 < w.sum)
    (hjw : j < w.length) (hjt : j < ty.length)
    (hwj : 0 < w.getD j 0)
    (hv : (X.getD i []).getD j 0 < v) :
    (pyLowerStrip (ty.getD j "") = "benefit" →
      (prefScores X w ty).getD i 0 <
        (prefScores (X.set i ((X.getD i []).set j v)) w ty).getD i 0) ∧
    (pyLowerStrip (ty.getD j "") = "cost" →
      (prefScores (X.set i ((X.getD i []).set j v)) w ty).getD i 0 <
        (prefScores X w ty).getD i 0) := by
  have hrowmem : X.getD i [] ∈ X := by
    rw [List.getD_eq_getElem _ _ hi]
    exact List.getElem_mem hi
  set row := X.getD i [] with hrowdef
  have hrowlen : row.length = w.length := hrows row hrowmem
  have hjr : j < row.length := by omega
  have hje : j < (exponents w ty).length := by
    rw [exponents_length]
    omega
  set e := exponents w ty with hedef
  have heff : 0 < (if npCloseOne w.sum then w.getD j 0
      else w.getD j 0 / w.sum) := by
    split
    · exact hwj
    · exact div_pos hwj hwsum
  set a := rawScore row e with hadef
  set a' := rawScore (row.set j v) e with hadef'
  have hrowpos : ∀ x ∈ row, 0 < x := hpos row hrowmem
  have ha : 0 < a := rawScore_pos row e hrowpos
  have hrowpos' : ∀ x ∈ row.set j v, 0 < x := by
    intro x hx
    rcases List.mem_or_eq_of_mem_set hx with h | h
    · exact hrowpos x h
    · subst h
      have hjpos : 0 < row.getD j 0 := by
        rw [List.getD_eq_getElem _ _ hjr]
        exact hrowpos _ (List.getElem_mem hjr)
      linarith
  have ha' : 0 < a' := rawScore_pos _ e hrowpos'
  have hSget : (rawScores X w ty).getD i 0 = a :=
    rawScores_getD X w ty i hi
  have hS'get : (rawScores (X.set i (row.set j v)) w ty).getD i 0 = a' := by
    rw [rawScores_set]
    exact getD_set_self _ i (by rwa [rawScores_length]) _
  have hT' : (rawScores (X.set i (row.set j v)) w ty).sum
      = (rawScores X w ty).sum - a + a' := by
    rw [rawScores_set, sum_set_real _ i (by rwa [rawScores_length]), hSget]
  have haT : a < (rawScores X w ty).sum := by
    rw [← hSget]
    exact getD_lt_sum _ i (rawScores_pos X w ty hpos)
      (by rw [rawScores_length]; omega) (by rwa [rawScores_length])
  set T := (rawScores X w ty).sum with hTdef
  have hVX : (prefScores X w ty).getD i 0 = a / T := by
    rw [prefScores_getD X w ty i hi, hSget]
  have hVX' : (prefScores (X.set i (row.set j v)) w ty).getD i 0
      = a' / (T - a + a') := by
    rw [prefScores_getD _ w ty i (by simpa using hi), hS'get, hT']
  have hexpj : e.getD j 0 =
      if isCostLabel (ty.getD j "") then
        -(if npCloseOne w.sum then w.getD j 0 else w.getD j 0 / w.sum)
      else (if npCloseOne w.sum then w.getD j 0 else w.getD j 0 / w.sum) := by
    rw [hedef, exponents_getD w ty j hjw hjt, normWeights_getD w j hjw]
  constructor
  · intro hben
    have he_pos : 0 < e.getD j 0 := by
      rw [hexpj, if_neg (by simp only [isCostLabel, beq_iff_eq, hben]; decide)]
      exact heff
    have haa' : a < a' := rawScore_set_lt row e j v hrowpos hjr hje hv he_pos
    rw [hVX, hVX']
    exact div_lt_div_incr a a' T ha haT haa'
  · intro hcost
    have he_neg : e.getD j 0 < 0 := by
      rw [hexpj, if_pos (show isCostLabel (ty.getD j "") = true by
        simp only [isCostLabel, beq_iff_eq]; exact hcost)]
      linarith
    have haa' : a' < a := rawScore_set_gt row e j v hrowpos hjr hje hv he_neg
    rw [hVX, hVX']
    exact div_lt_div_decr a a' T ha' haT haa'

/-- Witness for C9 amended at `X = [[1],[3]]`, `w = [1]`,
`ty = ["benefit"]`, raising entry `(0,0)` from 1 to 2. -/
theorem C9_monotonicity_amended_witness :
    (0 < [[(1:ℝ)], [3]].length) ∧ (2 ≤ [[(1:ℝ)], [3]].length) ∧
    (∀ row ∈ [[(1:ℝ)], [3]], row.length = ([(1:ℝ)]).length) ∧
    (∀ row ∈ [[(1:ℝ)], [3]], ∀ x ∈ row, 0 < x) ∧
    (∀ x ∈ [(1:ℝ)], 0 ≤ x) ∧ (0 < ([(1:ℝ)]).sum) ∧
    (0 < ([(1:ℝ)]).getD 0 0) ∧
    (([[(1:ℝ)], [3]].getD 0 []).getD 0 0 < 2) ∧
    ((pyLowerStrip ((["benefit"]).getD 0 "") = "benefit" →
      (prefScores [[(1:ℝ)], [3]] [1] ["benefit"]).getD 0 0 <
        (prefScores ([[(1:ℝ)], [3]].set 0
          (([[(1:ℝ)], [3]].getD 0 []).set 0 2)) [1] ["benefit"]).getD 0 0) ∧
     (pyLowerStrip ((["benefit"]).getD 0 "") = "cost" →
      (prefScores ([[(1:ℝ)], [3]].set 0
          (([[(1:ℝ)], [3]].getD 0 []).set 0 2)) [1] ["benefit"]).getD 0 0 <
        (prefScores [[(1:ℝ)], [3]] [1] ["benefit"]).getD 0 0)) :=
  ⟨by norm_num, by norm_num, by norm_num, by norm_num, by norm_num,
    by norm_num, by norm_num, by norm_num,
    C9_monotonicity_amended [[1], [3]] [1] ["benefit"] 0 0 2 (by norm_num)
      (by norm_num) (by norm_num) (by norm_num) (by norm_num) (by norm_num)
      (by norm_num) (by norm_num) (by norm_num) (by norm_num)⟩

lemma sum_map_mul_real (l : List ℝ) (k : ℝ) :
    (l.map (fun s => k * s)).sum = k * l.sum := by
  induction l with
  | nil => simp
  | cons x xs ih => simp [ih, mul_add]

lemma rawScore_set_scale (row e : List ℝ) (j : ℕ) (c : ℝ)
    (hc : 0 ≤ c) (hrow : ∀ x ∈ row, 0 ≤ x)
    (hj : j < row.length) (hje : j < e.length) :
    rawScore (row.set j (c * row.getD j 0)) e =
      c ^ (e.getD j 0) * rawScore row e := by
  induction j generalizing row e with
  | zero =>
    cases row with
    | nil => simp at hj
    | cons x xs =>
      cases e with
      | nil => simp at hje
      | cons p ps =>
        simp only [List.getD_cons_zero, List.set_cons_zero]
        rw [rawScore, rawScore, Real.mul_rpow hc (hrow x (by simp)), mul_assoc]
  | succ n ih =>
    cases row with
    | nil => simp at hj
    | cons x xs =>
      cases e with
      | nil => simp at hje
      | cons p ps =>
        simp only [List.getD_cons_succ, List.set_cons_succ]
        rw [rawScore, rawScore, ih xs ps (fun y hy => hrow y (by simp [hy]))
          (by simpa using hj) (by simpa using hje)]
        ring

lemma insertDesc_map_keepV (g : String × ℝ × ℝ → String × ℝ × ℝ)
    (hg : ∀ r, (g r).2.2 = r.2.2) (x : String × ℝ × ℝ)
    (l : List (String × ℝ × ℝ)) :
    insertDesc (g x) (l.map g) = (insertDesc x l).map g := by
  induction l with
  | nil => simp [insertDesc]
  | cons y ys ih =>
    simp only [List.map_cons]
    rw [insertDesc, insertDesc, hg x, hg y]
    by_cases hxy : x.2.2 < y.2.2
    · rw [if_pos hxy, if_pos hxy]
      simp [ih]
    · rw [if_neg hxy, if_neg hxy]
      simp

lemma sortDesc_map_keepV (g : String × ℝ × ℝ → String × ℝ × ℝ)
    (hg : ∀ r, (g r).2.2 = r.2.2) (l : List (String × ℝ × ℝ)) :
    sortDesc (l.map g) = (sortDesc l).map g := by
  induction l with
  | nil => rfl
  | cons x xs ih =>
    simp only [List.map_cons]
    rw [sortDesc, sortDesc, ih, insertDesc_map_keepV g hg]

/-- C10: multiplying every entry of criterion column `j` by a constant
`c > 0` multiplies every raw score by the same factor `c ^ e_j`, leaves
every preference score unchanged, and therefore returns the same ranked
result up to that scaling of the raw-score column (in particular the
ordering of the labels is unchanged). -/
theorem C10_column_scaling_invariance (X : List (List ℝ)) (w : List ℝ)
    (ty labels crit : List String) (c : ℝ) (j : ℕ)
    (hc : 0 < c)
    (hpos : ∀ row ∈ X, ∀ x ∈ row, 0 < x)
    (hrows : ∀ row ∈ X, row.length = w.length)
    (hjw : j < w.length) (hjt : j < ty.length) :
    rawScores (X.map (fun row => row.set j (c * row.getD j 0))) w ty =
      (rawScores X w ty).map
        (fun s => c ^ ((exponents w ty).getD j 0) * s) ∧
    prefScores (X.map (fun row => row.set j (c * row.getD j 0))) w ty =
      prefScores X w ty ∧
    weighted_product (X.map (fun row => row.set j (c * row.getD j 0))) w ty
        labels crit =
      (weighted_product X w ty labels crit).map
        (fun r => (r.1, c ^ ((exponents w ty).getD j 0) * r.2.1, r.2.2)) := by
  set k := c ^ ((exponents w ty).getD j 0) with hkdef
  have hk : 0 < k := Real.rpow_pos_of_pos hc _
  have hje : j < (exponents w ty).length := by
    rw [exponents_length]
    omega
  have hS : rawScores (X.map (fun row => row.set j (c * row.getD j 0))) w ty
      = (rawScores X w ty).map (fun s => k * s) := by
    unfold rawScores
    rw [List.map_map, List.map_map]
    apply List.map_congr_left
    intro row hrow
    simp only [Function.comp]
    exact rawScore_set_scale row (exponents w ty) j c (le_of_lt hc)
      (fun x hx => le_of_lt (hpos row hrow x hx))
      (by rw [hrows row hrow]; omega) hje
  have hV : prefScores (X.map (fun row => row.set j (c * row.getD j 0))) w ty
      = prefScores X w ty := by
    unfold prefScores
    rw [hS]
    simp only [sum_map_mul_real]
    rw [List.map_map]
    apply List.map_congr_left
    intro s hs
    simp only [Function.comp]
    exact mul_div_mul_left s _ (ne_of_gt hk)
  refine ⟨hS, hV, ?_⟩
  unfold weighted_product
  rw [hS]
  simp only [sum_map_mul_real]
  have hVs : ((rawScores X w ty).map (fun s => k * s)).map
      (fun s => s / (k * (rawScores X w ty).sum)) =
      (rawScores X w ty).map (fun s => s / (rawScores X w ty).sum) := by
    rw [List.map_map]
    apply List.map_congr_left
    intro s hs
    simp only [Function.comp]
    exact mul_div_mul_left s _ (ne_of_gt hk)
  rw [hVs, List.zip_map_left, List.zip_map_right,
    sortDesc_map_keepV (Prod.map id (Prod.map (fun s => k * s) id))
      (fun r => rfl)]
  apply List.map_congr_left
  intro r hr
  rfl

/-- Witness for C10 at `X = [[1],[2]]`, `w = [1]`, `ty = ["benefit"]`,
`c = 2`, column `j = 0`. -/
theorem C10_column_scaling_invariance_witness :
    ((0:ℝ) < 2) ∧
    (∀ row ∈ [[(1:ℝ)], [2]], ∀ x ∈ row, 0 < x) ∧
    (∀ row ∈ [[(1:ℝ)], [2]], row.length = ([(1:ℝ)]).length) ∧
    (rawScores ([[(1:ℝ)], [2]].map (fun row => row.set 0 (2 * row.getD 0 0)))
        [1] ["benefit"] =
      (rawScores [[(1:ℝ)], [2]] [1] ["benefit"]).map
        (fun s => (2:ℝ) ^ ((exponents [(1:ℝ)] ["benefit"]).getD 0 0) * s) ∧
     prefScores ([[(1:ℝ)], [2]].map (fun row => row.set 0 (2 * row.getD 0 0)))
        [1] ["benefit"] = prefScores [[(1:ℝ)], [2]] [1] ["benefit"] ∧
     weighted_product
        ([[(1:ℝ)], [2]].map (fun row => row.set 0 (2 * row.getD 0 0)))
        [1] ["benefit"] ["A", "B"] ["k"] =
      (weighted_product [[(1:ℝ)], [2]] [1] ["benefit"] ["A", "B"]
        ["k"]).map
        (fun r => (r.1,
          (2:ℝ) ^ ((exponents [(1:ℝ)] ["benefit"]).getD 0 0) * r.2.1,
          r.2.2))) :=
  ⟨by norm_num, by norm_num, by norm_num,
    C10_column_scaling_invariance [[1], [2]] [1] ["benefit"] ["A", "B"]
      ["k"] 2 0 (by norm_num) (by norm_num) (by norm_num) (by norm_num)
      (by norm_num)⟩

end SPKWP
